import Mathlib

/-!
Shallow embedding of the indicator/rule engine of the PreservingAlpha-CbPro
repository: the rolling price window (`src/alpha/coinframe.py`), the rule
grammar (`src/alpha/condition.py`), the mock numeric type
(`src/alpha/mocks/number.py`) and the simulated order book
(`src/alpha/mocks/order_book.py`).

Numbers are embedded as exact rationals (`ℚ`): prices, bounds and thresholds
in the source are Python floats fed from decimal strings, and every claim is
about the arithmetic of the formulas, which the rational embedding performs
exactly.

Python dictionaries keyed by integer timestamps are embedded as association
lists `List (ℤ × ℚ)` with unique keys; `dict.pop`, item assignment, and
`min`/`max` over keys are given below as `dictPop`, `dictInsert`, `keyMin`
and `keyMax`.
-/

namespace CbPro

/-- Python `str.endswith(suf)`: `suf` is a suffix of the character list. -/
def pyEndsWith (s suf : String) : Bool := decide (suf.data <:+ s.data)

/-- Python slicing `s[:-n]` for `0 < n ≤ len(s)`: drop the last `n` characters. -/
def pyDropRight (s : String) (n : ℕ) : String := ⟨s.data.take (s.data.length - n)⟩

/-- Numeric value of a decimal-digit character. -/
def digitVal : Char → ℕ
  | '0' => 0 | '1' => 1 | '2' => 2 | '3' => 3 | '4' => 4
  | '5' => 5 | '6' => 6 | '7' => 7 | '8' => 8 | '9' => 9
  | _ => 0

/-- Value of a list of decimal digits, most significant first. -/
def parseDigits (l : List Char) : ℕ := l.foldl (fun a c => a * 10 + digitVal c) 0

/-- Powers of ten, as rationals. -/
def pow10 : ℕ → ℚ
  | 0 => 1
  | n + 1 => 10 * pow10 n

/-- Python `float(s)` on a plain decimal literal (optional leading `-`,
optional fractional part), idealised to its exact rational value. -/
def parseRat (s : String) : ℚ :=
  let l := s.data
  let sign : ℚ := if l.head? = some '-' then -1 else 1
  let l := if l.head? = some '-' then l.tail else l
  let ip := l.takeWhile (· ≠ '.')
  let fp := (l.dropWhile (· ≠ '.')).tail
  sign * ((parseDigits ip : ℚ) + (parseDigits fp : ℚ) / pow10 fp.length)

/-- Keys of a timestamp-keyed dictionary. -/
def dictKeys (d : List (ℤ × ℚ)) : List ℤ := d.map Prod.fst

/-- Python `dict.pop(k)`'s effect on the dictionary: the entry at key `k`
is removed. -/
def dictPop : List (ℤ × ℚ) → ℤ → List (ℤ × ℚ)
  | [], _ => []
  | kv :: rest, k => if kv.1 = k then dictPop rest k else kv :: dictPop rest k

/-- Python `d[k] = v`: replace the value at key `k` in place if present,
else append the new entry at the end (Python dicts preserve insertion
order). -/
def dictInsert : List (ℤ × ℚ) → ℤ → ℚ → List (ℤ × ℚ)
  | [], k, v => [(k, v)]
  | kv :: rest, k, v =>
    if kv.1 = k then (k, v) :: rest else kv :: dictInsert rest k v

/-- Python `d[k]` / `d.pop(k)`'s return value: lookup by key. -/
def dictLookup : List (ℤ × ℚ) → ℤ → Option ℚ
  | [], _ => none
  | kv :: rest, k => if kv.1 = k then some kv.2 else dictLookup rest k

/-- Python `max(d)` over a dict's keys (`None` when the dict is empty, where
the source raises `ValueError`). -/
def keyMax : List ℤ → Option ℤ
  | [] => none
  | k :: ks =>
    match keyMax ks with
    | none => some k
    | some m => some (max k m)

/-- Python `min(d)` over a dict's keys (`None` when the dict is empty, where
the source raises `ValueError`). -/
def keyMin : List ℤ → Option ℤ
  | [] => none
  | k :: ks =>
    match keyMin ks with
    | none => some k
    | some m => some (min k m)

/-- The entry of a dict holding the minimal key, together with its value:
`(min(d), d[min(d)])` in the source. -/
def minEntry : List (ℤ × ℚ) → Option (ℤ × ℚ)
  | [] => none
  | kv :: rest =>
    match minEntry rest with
    | none => some kv
    | some kv' => some (if kv.1 ≤ kv'.1 then kv else kv')

end CbPro

namespace CbPro

/-! ### Dictionary lemmas -/

theorem keyMax_mem {l : List ℤ} : ∀ {m : ℤ}, keyMax l = some m → m ∈ l := by
  induction l with
  | nil => intro m h; simp [keyMax] at h
  | cons k ks ih =>
    intro m h
    cases hk : keyMax ks with
    | none => simp only [keyMax, hk] at h; simp at h; simp [h]
    | some m' =>
      simp only [keyMax, hk] at h
      simp at h
      rcases max_choice k m' with h1 | h1 <;> rw [h1] at h
      · simp [h]
      · exact List.mem_cons_of_mem _ (h ▸ ih hk)

theorem keyMax_eq_none {l : List ℤ} (h : keyMax l = none) : l = [] := by
  cases l with
  | nil => rfl
  | cons a ks =>
    simp only [keyMax] at h
    cases hk : keyMax ks <;> simp [hk] at h

theorem keyMax_le {l : List ℤ} : ∀ {m : ℤ}, keyMax l = some m →
    ∀ k ∈ l, k ≤ m := by
  induction l with
  | nil => simp
  | cons a ks ih =>
    intro m h k hkmem
    cases hk : keyMax ks with
    | none =>
      simp only [keyMax, hk] at h
      simp at h
      rw [keyMax_eq_none hk] at hkmem
      simp at hkmem
      omega
    | some m' =>
      simp only [keyMax, hk] at h
      simp at h
      rcases List.mem_cons.mp hkmem with rfl | hmem
      · exact h ▸ le_max_left _ _
      · exact le_trans (ih hk k hmem) (h ▸ le_max_right _ _)

theorem dictKeys_dictPop (d : List (ℤ × ℚ)) (k : ℤ) :
    dictKeys (dictPop d k) = (dictKeys d).filter (fun x => x ≠ k) := by
  induction d with
  | nil => rfl
  | cons kv rest ih =>
    simp only [dictPop, dictKeys, List.map_cons, List.filter_cons]
    by_cases h : kv.1 = k
    · have hd : decide (kv.1 ≠ k) = false := by simp [h]
      rw [if_pos h, hd]
      simpa [dictKeys] using ih
    · have hd : decide (kv.1 ≠ k) = true := by simp [h]
      rw [if_neg h, hd]
      simp only [if_true, List.map_cons]
      simpa [dictKeys] using congrArg (kv.1 :: ·) ih

theorem mem_dictKeys_dictPop {d : List (ℤ × ℚ)} {k k' : ℤ} :
    k' ∈ dictKeys (dictPop d k) ↔ k' ∈ dictKeys d ∧ k' ≠ k := by
  simp [dictKeys_dictPop, List.mem_filter]

theorem dictPop_of_not_mem {d : List (ℤ × ℚ)} {k : ℤ}
    (h : k ∉ dictKeys d) : dictPop d k = d := by
  induction d with
  | nil => rfl
  | cons kv rest ih =>
    simp only [dictKeys, List.map_cons, List.mem_cons, not_or] at h
    have : kv.1 ≠ k := fun hh => h.1 hh.symm
    simp [dictPop, this, ih (by simpa [dictKeys] using h.2)]

theorem length_dictPop {d : List (ℤ × ℚ)} {k : ℤ}
    (hnodup : (dictKeys d).Nodup) (hk : k ∈ dictKeys d) :
    (dictPop d k).length + 1 = d.length := by
  induction d with
  | nil => simp [dictKeys] at hk
  | cons kv rest ih =>
    simp only [dictKeys, List.map_cons, List.nodup_cons, List.mem_cons] at hnodup hk
    by_cases h : kv.1 = k
    · have hrest : dictPop rest k = rest :=
        dictPop_of_not_mem (by rw [← h] at hk ⊢; exact hnodup.1)
      simp [dictPop, h, hrest]
    · rcases hk with hk | hk
      · exact absurd hk.symm h
      · have := ih hnodup.2 hk
        simp only [dictPop, h, if_false, List.length_cons]
        omega

theorem dictInsert_of_not_mem {d : List (ℤ × ℚ)} {k : ℤ} (v : ℚ)
    (h : k ∉ dictKeys d) : dictInsert d k v = d ++ [(k, v)] := by
  induction d with
  | nil => rfl
  | cons kv rest ih =>
    simp only [dictKeys, List.map_cons, List.mem_cons, not_or] at h
    have : kv.1 ≠ k := fun hh => h.1 hh.symm
    simp [dictInsert, this, ih (by simpa [dictKeys] using h.2)]

theorem mem_dictKeys_dictInsert {d : List (ℤ × ℚ)} {k k' : ℤ} {v : ℚ} :
    k' ∈ dictKeys (dictInsert d k v) ↔ k' ∈ dictKeys d ∨ k' = k := by
  induction d with
  | nil => simp [dictKeys, dictInsert]
  | cons kv rest ih =>
    by_cases h : kv.1 = k
    · simp only [dictInsert, if_pos h, dictKeys, List.map_cons]
      subst h
      simp only [List.mem_cons]
      tauto
    · simp only [dictInsert, if_neg h, dictKeys, List.map_cons, List.mem_cons]
      simp only [dictKeys] at ih
      rw [ih]
      tauto

theorem dictLookup_dictInsert_self (d : List (ℤ × ℚ)) (k : ℤ) (v : ℚ) :
    dictLookup (dictInsert d k v) k = some v := by
  induction d with
  | nil => simp [dictInsert, dictLookup]
  | cons kv rest ih =>
    by_cases h : kv.1 = k
    · simp [dictInsert, dictLookup, h]
    · simp [dictInsert, dictLookup, h, ih]

theorem dictLookup_dictInsert_ne {k k' : ℤ} (d : List (ℤ × ℚ)) (v : ℚ)
    (h : k' ≠ k) : dictLookup (dictInsert d k v) k' = dictLookup d k' := by
  induction d with
  | nil => simp [dictInsert, dictLookup, Ne.symm h]
  | cons kv rest ih =>
    by_cases hk : kv.1 = k
    · have h1 : k ≠ k' := fun hh => h hh.symm
      simp [dictInsert, dictLookup, hk, h1]
    · simp only [dictInsert, hk, if_false, dictLookup]
      by_cases hk' : kv.1 = k' <;> simp [dictLookup, hk', ih]

theorem dictLookup_dictPop_self (d : List (ℤ × ℚ)) (k : ℤ) :
    dictLookup (dictPop d k) k = none := by
  induction d with
  | nil => rfl
  | cons kv rest ih =>
    by_cases h : kv.1 = k
    · simpa [dictPop, h] using ih
    · simp [dictPop, dictLookup, h, ih]

theorem pyEndsWith_star_of_dstar (s : String) (h : pyEndsWith s "**" = true) :
    pyEndsWith s "*" = true := by
  simp only [pyEndsWith, decide_eq_true_eq] at h ⊢
  obtain ⟨t, ht⟩ := h
  exact ⟨t ++ ['*'], by simpa using ht⟩

example : pyEndsWith "0.98*" "*" = true := by decide
example : pyEndsWith "0.98*" "**" = false := by decide
example : pyDropRight "0.98*" 1 = "0.98" := by decide
example : parseRat "0.98" = 98 / 100 := by
  norm_num +decide [parseRat, parseDigits, digitVal, pow10, List.takeWhile, List.dropWhile,
    List.foldl]
example : parseRat "-0.003" = -3 / 1000 := by
  norm_num +decide [parseRat, parseDigits, digitVal, pow10, List.takeWhile, List.dropWhile,
    List.foldl]
example : keyMax [0, 1] = some 1 := by decide
example : minEntry [(0, 10), (1, 12)] = some (0, 10) := by decide

end CbPro

namespace CbPro

/-!
## CoinFrame (`src/alpha/coinframe.py`)

The engine's data is a one-column (`price`) pandas DataFrame indexed by
minute-resolution unix timestamps, kept in sync with the index-oriented
dictionary `_src`; both are embedded as `List (ℤ × ℚ)` in index order.
pandas column operations are embedded row-wise, with `Option ℚ` for `NaN`.
-/

/-- Trailing windows of pandas `df.rolling(n)`: entry `i` is the list of the
`n` values ending at row `i`, or `none` while fewer than `n` rows exist.
`acc` is the reversed prefix of already-seen values. -/
def windowsAux (n : ℕ) (acc : List ℚ) : List ℚ → List (Option (List ℚ))
  | [] => []
  | x :: rest =>
    (if n ≤ (x :: acc).length then some (((x :: acc).take n).reverse) else none)
      :: windowsAux n (x :: acc) rest

/-- Trailing windows of length `n` over a value column. -/
def windows (n : ℕ) (xs : List ℚ) : List (Option (List ℚ)) := windowsAux n [] xs

/-- pandas `df.rolling(n).mean()`: arithmetic mean of each trailing window. -/
def rollingMean (n : ℕ) (xs : List ℚ) : List (Option ℚ) :=
  (windows n xs).map (Option.map (fun w => w.sum / (n : ℚ)))

/-- Maximum of a nonempty value list (`0` for the empty list, which pandas
never produces for a full window). -/
def maxList : List ℚ → ℚ
  | [] => 0
  | [x] => x
  | x :: rest => max x (maxList rest)

/-- Minimum of a nonempty value list (`0` for the empty list). -/
def minList : List ℚ → ℚ
  | [] => 0
  | [x] => x
  | x :: rest => min x (minList rest)

/-- pandas `df.rolling(n).max()`. -/
def rollingMax (n : ℕ) (xs : List ℚ) : List (Option ℚ) :=
  (windows n xs).map (Option.map maxList)

/-- pandas `df.rolling(n).min()`. -/
def rollingMin (n : ℕ) (xs : List ℚ) : List (Option ℚ) :=
  (windows n xs).map (Option.map minList)

/-- pandas `df.cummax()` (tail of the recursion: `cur` is the running max). -/
def cummaxAux (cur : ℚ) : List ℚ → List ℚ
  | [] => []
  | x :: rest => max cur x :: cummaxAux (max cur x) rest

/-- pandas `df.cummax()`: running maximum of the whole column. -/
def cummax : List ℚ → List ℚ
  | [] => []
  | x :: rest => x :: cummaxAux x rest

/-- pandas `df.cummin()` (tail of the recursion: `cur` is the running min). -/
def cumminAux (cur : ℚ) : List ℚ → List ℚ
  | [] => []
  | x :: rest => min cur x :: cumminAux (min cur x) rest

/-- pandas `df.cummin()`: running minimum of the whole column. -/
def cummin : List ℚ → List ℚ
  | [] => []
  | x :: rest => x :: cumminAux x rest

/-- pandas `Series.shift(1)`: move every value down one row, `NaN` on top. -/
def shift1 (xs : List (Option ℚ)) : List (Option ℚ) := none :: xs.dropLast

/-- pandas `df.dropna()` on a one-column frame: keep only rows whose value is
present. -/
def dropna (rows : List (ℤ × Option ℚ)) : List (ℤ × ℚ) :=
  rows.filterMap (fun tv => tv.2.map (fun v => (tv.1, v)))

/-- `CoinFrame.ema(n)`: `multiplier = 2/(n+1)`; the `ema` column is
`df.price * multiplier + df[sma].shift(1) * (1 - multiplier)` where `sma` is
the rolling-`n` mean of the price column; `cache` returns the frame with its
`NaN` rows dropped. -/
def ema (w : List (ℤ × ℚ)) (n : ℕ) : List (ℤ × ℚ) :=
  let prices := w.map Prod.snd
  let multiplier : ℚ := 2 / ((n : ℚ) + 1)
  let ema1 := List.zipWith
    (fun p s? => s?.map (fun s => p * multiplier + s * (1 - multiplier)))
    prices (shift1 (rollingMean n prices))
  dropna ((w.map Prod.fst).zip ema1)

/-- A one-column DataFrame as returned by `CoinFrame.max`/`CoinFrame.min`:
the renamed column and its (already `dropna`-ed) rows. -/
structure Frame where
  col : String
  rows : List (ℤ × ℚ)
deriving Repr, DecidableEq

/-- `CoinFrame.max(n)`: rolling max over `n` records, or the cumulative max
of the whole window when `n` is falsy (`0`); the single column is renamed to
`"max (n=<n or 'hist'>)"` and `cache` drops `NaN` rows. -/
def cbMax (w : List (ℤ × ℚ)) (n : ℕ) : Frame :=
  let ts := w.map Prod.fst
  let suffix := "max (n=" ++ (if n = 0 then "hist" else toString n) ++ ")"
  if n = 0 then ⟨suffix, ts.zip (cummax (w.map Prod.snd))⟩
  else ⟨suffix, dropna (ts.zip (rollingMax n (w.map Prod.snd)))⟩

/-- `CoinFrame.min(n)`: rolling min over `n` records, or the cumulative min
when `n = 0`; column renamed to `"min (n=<n or 'hist'>)"`. -/
def cbMin (w : List (ℤ × ℚ)) (n : ℕ) : Frame :=
  let ts := w.map Prod.fst
  let suffix := "min (n=" ++ (if n = 0 then "hist" else toString n) ++ ")"
  if n = 0 then ⟨suffix, ts.zip (cummin (w.map Prod.snd))⟩
  else ⟨suffix, dropna (ts.zip (rollingMin n (w.map Prod.snd)))⟩

/-- pandas attribute access `df.<name>`: the column's rows when the frame's
single column carries exactly that name, otherwise an `AttributeError`
(`none`). -/
def frameAttr (f : Frame) (name : String) : Option (List (ℤ × ℚ)) :=
  if f.col = name then some f.rows else none

/-- `CoinFrame.spread(n)`: evaluates `df_max.max_hist - df_min.min_hist` on
the frames returned by `max(n)` and `min(n)` — attribute lookups of columns
literally named `max_hist` and `min_hist`. `none` models the
`AttributeError` raised when a lookup fails. -/
def spread (w : List (ℤ × ℚ)) (n : ℕ) : Option Frame :=
  match frameAttr (cbMax w n) "max_hist" with
  | none => none
  | some mx =>
    match frameAttr (cbMin w n) "min_hist" with
    | none => none
    | some mn =>
      some ⟨"spread (n=" ++ (if n = 0 then "hist" else toString n) ++ ")",
            List.zipWith (fun a b => (a.1, a.2 - b.2)) mx mn⟩

/-- `CoinFrame.update` in live mode, acting on the `_src` dictionary: with
`tmstmp, price` from the ticker feed, if `tmstmp - max(_src) > 0` then
`_src.pop(max(_src))` first; then `_src[tmstmp] = price`.  `none` models the
`ValueError` `max()` raises on an empty dictionary. -/
def cfUpdate (d : List (ℤ × ℚ)) (tmstmp : ℤ) (price : ℚ) :
    Option (List (ℤ × ℚ)) :=
  match keyMax (dictKeys d) with
  | none => none
  | some last =>
    some (if 0 < tmstmp - last then dictInsert (dictPop d last) tmstmp price
          else dictInsert d tmstmp price)

/-- Errors of `src/alpha/errors.py` reachable from the embedded operations. -/
inductive CBError
  | backTestCompleted
deriving Repr, DecidableEq

/-- The engine's mutable dictionaries: `_src` (live buffer) and
`_src_backtest` (replay queue). -/
structure CFState where
  src : List (ℤ × ℚ)
  srcBacktest : List (ℤ × ℚ)
deriving Repr, DecidableEq

/-- `CoinFrame._update_backtest`: `tmstmp = min(_src_backtest)` (raising
`ValueError`, caught and re-raised as `BackTestCompletedError`, when the
replay queue is empty); `_src.pop(min(_src))` discards the oldest live
record; `price = _src_backtest.pop(min(_src_backtest))`; finally
`_src[tmstmp] = price`.  The first `min()` call precedes every mutation, so
an exhausted replay queue leaves both dictionaries untouched. -/
def backtestUpdate (s : CFState) : Except CBError CFState :=
  match minEntry s.srcBacktest with
  | none => .error .backTestCompleted
  | some (tmstmp, price) =>
    match minEntry s.src with
    | none => .error .backTestCompleted
    | some (oldest, _) =>
      .ok ⟨dictInsert (dictPop s.src oldest) tmstmp price,
           dictPop s.srcBacktest tmstmp⟩

end CbPro


namespace CbPro

/-! ### Claims on the indicator engine -/

/-- C1: For the window `{0:10, 1:12, 2:14, 3:16}` (timestamp to price), the
engine's `ema(2)` returns exactly the series `{2: 13.0, 3: 15.0}`: with
multiplier `m = 2/(n+1) = 2/3`, each retained row `t` satisfies
`ema(t) = price(t)*m + sma(t-1)*(1-m)` where `sma` is the trailing-2
arithmetic mean, and rows 0 and 1 are dropped for insufficient history. -/
theorem ema_sma_seeded_window :
    ema [(0, 10), (1, 12), (2, 14), (3, 16)] 2 = [(2, 13), (3, 15)] := by
  norm_num [ema, rollingMean, windows, windowsAux, shift1, dropna,
    List.filterMap_cons]

/-- C2 (counterexample): on the live window `{0:10, 1:12}` an update with the
strictly newer timestamp 2 produces the window `{0:10, 2:99}` — the OLDEST
key 0 survives and the NEWEST key 1 is the one evicted, so the claim that
"the entry with the smallest (oldest) timestamp is removed" is false: the
source pops `self.last()`, the maximum key. -/
theorem update_oldest_evicted_counterexample :
    cfUpdate [(0, 10), (1, 12)] 2 99 = some [(0, 10), (2, 99)] ∧
    (0 : ℤ) ∈ dictKeys [((0 : ℤ), (10 : ℚ)), (2, 99)] ∧
    (1 : ℤ) ∉ dictKeys [((0 : ℤ), (10 : ℚ)), (2, 99)] := by
  refine ⟨by decide, by decide, by decide⟩

/-- C2 (amended): for every live update whose incoming timestamp is strictly
greater than the window's current maximum key, the entry with the LARGEST
(newest) timestamp — not the oldest — is removed before the new pair is
inserted, so the window size stays constant; if the incoming timestamp is not
strictly newer, no entry is evicted and the price is merged at that key. -/
theorem update_evicts_newest (d : List (ℤ × ℚ)) (tmstmp last : ℤ)
    (price : ℚ) (r : List (ℤ × ℚ))
    (hlast : keyMax (dictKeys d) = some last)
    (hnodup : (dictKeys d).Nodup)
    (hr : cfUpdate d tmstmp price = some r) :
    (last < tmstmp →
      last ∉ dictKeys r ∧
      (∀ k ∈ dictKeys d, k ≠ last → k ∈ dictKeys r) ∧
      dictLookup r tmstmp = some price ∧
      r.length = d.length) ∧
    (¬ last < tmstmp →
      (∀ k ∈ dictKeys d, k ∈ dictKeys r) ∧
      dictLookup r tmstmp = some price) := by
  have hmem : last ∈ dictKeys d := keyMax_mem hlast
  simp only [cfUpdate, hlast, Option.some.injEq] at hr
  constructor
  · intro hlt
    rw [if_pos (by omega : (0 : ℤ) < tmstmp - last)] at hr
    subst hr
    refine ⟨?_, ?_, dictLookup_dictInsert_self _ _ _, ?_⟩
    · intro hcon
      rcases mem_dictKeys_dictInsert.mp hcon with h1 | h1
      · exact (mem_dictKeys_dictPop.mp h1).2 rfl
      · omega
    · intro k hk hkne
      exact mem_dictKeys_dictInsert.mpr
        (Or.inl (mem_dictKeys_dictPop.mpr ⟨hk, hkne⟩))
    · have htm : tmstmp ∉ dictKeys (dictPop d last) := by
        intro hcon
        have h1 := (mem_dictKeys_dictPop.mp hcon).1
        have := keyMax_le hlast tmstmp h1
        omega
      rw [dictInsert_of_not_mem _ htm]
      have := length_dictPop hnodup hmem
      simp only [List.length_append, List.length_cons, List.length_nil]
      omega
  · intro hge
    rw [if_neg (by omega : ¬ (0 : ℤ) < tmstmp - last)] at hr
    subst hr
    exact ⟨fun k hk => mem_dictKeys_dictInsert.mpr (Or.inl hk),
      dictLookup_dictInsert_self _ _ _⟩

/-- Witness for `update_evicts_newest` at the window `{0:10, 1:12}` with
incoming pair `(2, 99)`. -/
theorem update_evicts_newest_witness :
    (1 : ℤ) ∉ dictKeys [((0 : ℤ), (10 : ℚ)), (2, 99)] ∧
    dictLookup [((0 : ℤ), (10 : ℚ)), (2, 99)] 2 = some (99 : ℚ) ∧
    ([((0 : ℤ), (10 : ℚ)), (2, 99)] : List (ℤ × ℚ)).length =
      ([((0 : ℤ), (10 : ℚ)), (1, 12)] : List (ℤ × ℚ)).length := by
  have H := update_evicts_newest [(0, 10), (1, 12)] 2 1 99 [(0, 10), (2, 99)]
    (by decide) (by decide) (by decide)
  have H1 := H.1 (by decide)
  exact ⟨H1.1, H1.2.2.1, H1.2.2.2⟩

/-- C3 (counterexample): from live buffer `{0:10, 1:12}` and replay queue
`{5:99}`, a backtest update yields live buffer `{1:12, 5:99}` — the replay
price 99 is keyed under the replay queue's own timestamp 5, and nothing at
all remains under the live buffer's removed oldest timestamp 0, so the claim
that the price is inserted "under the live buffer's removed oldest
timestamp" is false. -/
theorem backtest_timestamp_counterexample :
    backtestUpdate ⟨[(0, 10), (1, 12)], [(5, 99)]⟩ =
      .ok ⟨[(1, 12), (5, 99)], []⟩ ∧
    dictLookup [((1 : ℤ), (12 : ℚ)), (5, 99)] 0 = none ∧
    dictLookup [((1 : ℤ), (12 : ℚ)), (5, 99)] 5 = some 99 := by
  refine ⟨?_, by decide, by decide⟩
  simp +decide [backtestUpdate, minEntry, dictPop, dictInsert, dictKeys]

/-- C3 (amended): a backtest-mode update with a non-empty replay queue pops
the oldest timestamp from the live buffer (discarding it), pops the oldest
`(timestamp, price)` pair from the replay queue, and inserts that price into
the live buffer keyed under the REPLAY QUEUE entry's own timestamp: the new
buffer holds the replay price at the replay timestamp and holds nothing at
the removed live-oldest timestamp. -/
theorem backtest_update_replay_key (s : CFState) (tb tl : ℤ) (pb pl : ℚ)
    (hb : minEntry s.srcBacktest = some (tb, pb))
    (hl : minEntry s.src = some (tl, pl))
    (hne : tb ≠ tl) :
    backtestUpdate s =
      .ok ⟨dictInsert (dictPop s.src tl) tb pb, dictPop s.srcBacktest tb⟩ ∧
    dictLookup (dictInsert (dictPop s.src tl) tb pb) tb = some pb ∧
    dictLookup (dictInsert (dictPop s.src tl) tb pb) tl = none := by
  refine ⟨by simp [backtestUpdate, hb, hl], dictLookup_dictInsert_self _ _ _, ?_⟩
  rw [dictLookup_dictInsert_ne _ _ (Ne.symm hne)]
  exact dictLookup_dictPop_self _ _

/-- Witness for `backtest_update_replay_key` at live buffer `{0:10, 1:12}`
and replay queue `{5:99}`. -/
theorem backtest_update_replay_key_witness :
    backtestUpdate ⟨[(0, 10), (1, 12)], [(5, 99)]⟩ =
      .ok ⟨dictInsert (dictPop [(0, 10), (1, 12)] 0) 5 99,
           dictPop [(5, 99)] 5⟩ ∧
    dictLookup (dictInsert (dictPop [(0, 10), (1, 12)] 0) 5 99) 5 =
      some (99 : ℚ) ∧
    dictLookup (dictInsert (dictPop [(0, 10), (1, 12)] 0) 5 99) 0 = none :=
  backtest_update_replay_key ⟨[(0, 10), (1, 12)], [(5, 99)]⟩ 5 0 99 10
    (by decide) (by decide) (by decide)

theorem string_maxcol_ne (s : String) :
    ("max (n=" ++ s ++ ")" : String) ≠ "max_hist" := by
  intro h
  have hd := congrArg String.data h
  simp [String.data_append] at hd

theorem string_mincol_ne (s : String) :
    ("min (n=" ++ s ++ ")" : String) ≠ "min_hist" := by
  intro h
  have hd := congrArg String.data h
  simp [String.data_append] at hd

theorem cbMax_col (w : List (ℤ × ℚ)) (n : ℕ) :
    (cbMax w n).col = "max (n=" ++ (if n = 0 then "hist" else toString n) ++ ")" := by
  by_cases h : n = 0 <;> simp [cbMax, h]

/-- C4: `spread(n)` never returns the rolling max minus rolling min — it
fails for EVERY window and every `n`: it reads the attributes `max_hist` /
`min_hist`, but `max(n)`/`min(n)` name their single column
`"max (n=...)"` / `"min (n=...)"`, so the first attribute access raises
`AttributeError` (here: `none`) before any subtraction happens. -/
theorem spread_attribute_error (w : List (ℤ × ℚ)) (n : ℕ) :
    spread w n = none := by
  have hcol := cbMax_col w n
  have hattr : frameAttr (cbMax w n) "max_hist" = none := by
    simp only [frameAttr, hcol]
    rw [if_neg (string_maxcol_ne _)]
  simp [spread, hattr]

/-- C8: a backtest-mode update when the replay queue is empty raises the
backtest-completion signal (`BackTestCompletedError`, from the `ValueError`
of `min()` on the empty queue) and produces no updated state; in the source
the failing `min()` call is the first statement of `_update_backtest`, so
both the live buffer and the replay queue are untouched. -/
theorem backtest_completed_on_empty_queue (src : List (ℤ × ℚ)) :
    backtestUpdate ⟨src, []⟩ = .error .backTestCompleted := rfl

end CbPro

namespace CbPro

/-!
## Calc and Condition (`src/alpha/condition.py`)
-/

/-- A parsed `Calc`: name `nm`, window `bound`, and the resolved value `val`
(set later by `Condition.apply`, `float()` = 0 until then). -/
structure Calc where
  nm : String
  bound : ℚ
  val : ℚ
deriving Repr, DecidableEq

/-- `Calc.__init__` on a raw token list: `[name, bound]` parses the bound
with `Float(...)`, `[name]` leaves the sentinel `-1` (an empty token list
raises `IndexError` in the source; it is mapped to an empty name here).
Then the suffix rule as written: `if nm.endswith('*')` strips ONE trailing
character and multiplies the bound by 60; only otherwise does the `elif`
for `'**'` strip two — but a name ending in `'**'` also ends in `'*'`, so
the `elif` branch is unreachable. -/
def calcInit (raw : List String) : Calc :=
  let p : String × ℚ :=
    match raw with
    | [a, b] => (a, parseRat b)
    | a :: _ => (a, -1)
    | [] => ("", -1)
  let q : String × ℚ :=
    if pyEndsWith p.1 "*" then (pyDropRight p.1 1, p.2 * 60)
    else if pyEndsWith p.1 "**" then (pyDropRight p.1 2, p.2 * 60)
    else p
  ⟨q.1, q.2, 0⟩

/-- A parsed `Condition`: its two `Calc`s (`calcs[1]`, `calcs[2]`), the raw
threshold token `t_r`, the operator flags `gt`/`eq`, and the threshold `t`. -/
structure Condition where
  c1 : Calc
  c2 : Calc
  t_r : String
  gt : Bool
  eq : Bool
  t : ℚ
deriving Repr, DecidableEq

/-- The operator/threshold part of `Condition.__init__`:
`eq = t_r.endswith('**')`, `gt = t_r.endswith('*') and not
t_r.endswith('**')`; the numeric threshold is `float` of the token with its
markers stripped (`t_r[:-1]` when `gt`, `t_r[:-2]` when `eq`, the whole
token otherwise). -/
def condAssemble (c1 c2 : Calc) (t_r : String) : Condition :=
  let eq := pyEndsWith t_r "**"
  let gt := pyEndsWith t_r "*" && !(pyEndsWith t_r "**")
  let t := if gt then parseRat (pyDropRight t_r 1)
           else if eq then parseRat (pyDropRight t_r 2)
           else parseRat t_r
  ⟨c1, c2, t_r, gt, eq, t⟩

/-- `Condition.__init__` on the raw 3-element list:
`calcs = {1: Calc(raw[0]), 2: Calc(raw[1])}`, `t_r = raw[-1][0]`. -/
def conditionInit (raw : List (List String)) : Condition :=
  condAssemble (calcInit (raw.headD [])) (calcInit ((raw.drop 1).headD []))
    ((raw.getLastD []).headD "")

/-- `Condition.apply`: bind the resolved values onto the two Calcs. -/
def conditionApply (c : Condition) (v1 v2 : ℚ) : Condition :=
  { c with c1 := { c.c1 with val := v1 }, c2 := { c.c2 with val := v2 } }

/-- `Calc.__truediv__`: `Float(float(self) / Float(other))` when both
resolved values are truthy, else `Float()` (= 0): division involving an
unset value yields 0 instead of failing. -/
def calcDiv (a b : Calc) : ℚ :=
  if a.val ≠ 0 ∧ b.val ≠ 0 then a.val / b.val else 0

/-- The cold-start test shared by `Condition.actual` and
`Condition.__bool__`: some Calc is named `price-last` with an unset (zero)
resolved value. -/
def condSentinel (c : Condition) : Bool :=
  (c.c1.nm = "price-last" && c.c1.val = 0) ||
  (c.c2.nm = "price-last" && c.c2.val = 0)

/-- `Condition.actual`: `Float()` (0) under the cold-start sentinel, else
`calcs[2] / calcs[1]` through `Calc.__truediv__`. -/
def condActual (c : Condition) : ℚ :=
  if condSentinel c then 0 else calcDiv c.c2 c.c1

/-- `Condition.__bool__`: unconditionally true under the cold-start
sentinel; otherwise `actual > t` when `gt`, `actual == t` when `eq`, else
`actual < t`. -/
def conditionBool (c : Condition) : Bool :=
  if condSentinel c then true
  else if c.gt then decide (condActual c > c.t)
  else if c.eq then decide (condActual c = c.t)
  else decide (condActual c < c.t)

/-- C5: refuted on the code — the `'**'` `elif` is dead code, because a name
ending in `'**'` also satisfies `endswith('*')` and takes the first branch,
which strips only ONE character: `Calc(["price-last**", "2"])` gets the name
`"price-last*"`, which still ends in a `'*'` marker (the bound is still
multiplied by 60, giving 120). -/
theorem calc_double_star_name_keeps_star :
    (calcInit ["price-last**", "2"]).nm = "price-last*" ∧
    (calcInit ["price-last**", "2"]).bound = 120 ∧
    pyEndsWith (calcInit ["price-last**", "2"]).nm "*" = true := by
  refine ⟨by decide, ?_, by decide⟩
  norm_num +decide [calcInit, parseRat, parseDigits, digitVal, pow10,
    pyEndsWith, pyDropRight, List.takeWhile, List.dropWhile, List.foldl]

/-- C6: for every Condition assembled from a threshold token and any two
Calcs, as long as the cold-start sentinel does not fire, the token's
trailing markers select the comparison used by `__bool__` — `'**'` compares
for equality against `float(t_r[:-2])`, a single `'*'` (not `'**'`) compares
greater-than against `float(t_r[:-1])`, and no marker compares less-than
against `float(t_r)`. -/
theorem condition_operator_selection (c1 c2 : Calc) (t_r : String)
    (hs : condSentinel (condAssemble c1 c2 t_r) = false) :
    (pyEndsWith t_r "**" = true →
      (condAssemble c1 c2 t_r).t = parseRat (pyDropRight t_r 2) ∧
      conditionBool (condAssemble c1 c2 t_r) =
        decide (condActual (condAssemble c1 c2 t_r) =
          (condAssemble c1 c2 t_r).t)) ∧
    (pyEndsWith t_r "*" = true → pyEndsWith t_r "**" = false →
      (condAssemble c1 c2 t_r).t = parseRat (pyDropRight t_r 1) ∧
      conditionBool (condAssemble c1 c2 t_r) =
        decide (condActual (condAssemble c1 c2 t_r) >
          (condAssemble c1 c2 t_r).t)) ∧
    (pyEndsWith t_r "*" = false →
      (condAssemble c1 c2 t_r).t = parseRat t_r ∧
      conditionBool (condAssemble c1 c2 t_r) =
        decide (condActual (condAssemble c1 c2 t_r) <
          (condAssemble c1 c2 t_r).t)) := by
  refine ⟨?_, ?_, ?_⟩
  · intro h
    have hgt : (condAssemble c1 c2 t_r).gt = false := by simp [condAssemble, h]
    have heq : (condAssemble c1 c2 t_r).eq = true := by simp [condAssemble, h]
    exact ⟨by simp [condAssemble, h], by simp [conditionBool, hs, hgt, heq]⟩
  · intro h1 h2
    have hgt : (condAssemble c1 c2 t_r).gt = true := by
      simp [condAssemble, h1, h2]
    exact ⟨by simp [condAssemble, h1, h2], by simp [conditionBool, hs, hgt]⟩
  · intro h
    have hss : pyEndsWith t_r "**" = false := by
      cases hh : pyEndsWith t_r "**"
      · rfl
      · exact absurd (pyEndsWith_star_of_dstar _ hh) (by simp [h])
    have hgt : (condAssemble c1 c2 t_r).gt = false := by simp [condAssemble, h]
    have heq : (condAssemble c1 c2 t_r).eq = false := by
      simp [condAssemble, hss]
    exact ⟨by simp [condAssemble, h, hss], by
      simp [conditionBool, hs, hgt, heq]⟩

/-- Witness for `condition_operator_selection` on the threshold token
`"0.98*"` with two resolved `dema` Calcs. -/
theorem condition_operator_selection_witness :
    (condAssemble ⟨"dema", 15, 2⟩ ⟨"dema", 30, 3⟩ "0.98*").t =
      parseRat (pyDropRight "0.98*" 1) ∧
    conditionBool (condAssemble ⟨"dema", 15, 2⟩ ⟨"dema", 30, 3⟩ "0.98*") =
      decide (condActual (condAssemble ⟨"dema", 15, 2⟩ ⟨"dema", 30, 3⟩ "0.98*") >
        (condAssemble ⟨"dema", 15, 2⟩ ⟨"dema", 30, 3⟩ "0.98*").t) :=
  (condition_operator_selection ⟨"dema", 15, 2⟩ ⟨"dema", 30, 3⟩ "0.98*"
    (by decide)).2.1 (by decide) (by decide)

/-- C7: a Condition one of whose Calcs is named `price-last` with a
zero/unset resolved value evaluates to true, regardless of the operator
flags, the threshold, and the other Calc. -/
theorem condition_cold_start_bypass (c : Condition)
    (h : (c.c1.nm = "price-last" ∧ c.c1.val = 0) ∨
         (c.c2.nm = "price-last" ∧ c.c2.val = 0)) :
    conditionBool c = true := by
  have hs : condSentinel c = true := by
    rcases h with ⟨h1, h2⟩ | ⟨h1, h2⟩ <;> simp [condSentinel, h1, h2]
  simp [conditionBool, hs]

/-- Witness for `condition_cold_start_bypass`: the parsed condition
`[["price-last"], ["dema", "15"], ["0.98*"]]` with values `(0, 5)`. -/
theorem condition_cold_start_bypass_witness :
    conditionBool (conditionApply
      (conditionInit [["price-last"], ["dema", "15"], ["0.98*"]]) 0 5) =
      true :=
  condition_cold_start_bypass _ (Or.inl ⟨by decide, by decide⟩)

end CbPro

namespace CbPro

/-!
## `Float` (`src/alpha/mocks/number.py`)

`class Float(float)` defines no `__new__`, so the numeric value of
`Float(x)` is fixed by `float.__new__(Float, x)`: it is `x` itself.
`Float.__init__` computes `round(float(val), 3)` into its local variable and
then calls `float.__init__(val or float())` — a no-op that cannot rebind the
value of the already-constructed immutable float.  The rounding therefore
never takes effect, neither at construction nor in the arithmetic dunders
(each returns `Float(<plain float op>)`).
-/

/-- The value of `Float(x)` under CPython semantics: `x` itself (see the
section comment — `__init__`'s local rounding is discarded). -/
def floatVal (x : ℚ) : ℚ := x

/-- Round half-to-even at the third decimal: the value `round(x, 3)` that
`Float.__init__` computes into its local variable. -/
def pyRound3 (x : ℚ) : ℚ :=
  let y := x * 1000
  let f := ⌊y⌋
  (if y - f < 1 / 2 then (f : ℚ)
   else if y - f > 1 / 2 then (f : ℚ) + 1
   else if f % 2 = 0 then (f : ℚ) else (f : ℚ) + 1) / 1000

/-- What the claim asserts `Float(x)` to equal: `round(float(x), 3)` for
truthy `x`, `0.0` for falsy input. -/
def floatInitClaimed (x : ℚ) : ℚ := if x ≠ 0 then pyRound3 x else 0

/-- `Float.__add__`: `Float(float(self) + float(other))`. -/
def floatAdd (x y : ℚ) : ℚ := floatVal (x + y)

/-- `Float.__sub__`: `Float(float(self) - float(other))`. -/
def floatSub (x y : ℚ) : ℚ := floatVal (x - y)

/-- `Float.__mul__`: `Float(float(self) * float(other))`. -/
def floatMul (x y : ℚ) : ℚ := floatVal (x * y)

/-- `Float.__truediv__`: `Float(float(self) / float(other))`. -/
def floatDiv (x y : ℚ) : ℚ := floatVal (x / y)

/-- C10: refuted on the code — `Float(1.2346)` keeps the full value
`1.2346`, although `round(1.2346, 3) = 1.235`: the rounding that
`Float.__init__` computes is discarded (`float.__init__` cannot mutate the
immutable float), so neither construction nor the arithmetic operators
round to 3 decimal places; `Float(1.2341) + Float(0)` likewise stays
`1.2341`. -/
theorem float_rounding_is_noop :
    floatVal (12346 / 10000) = 12346 / 10000 ∧
    floatInitClaimed (12346 / 10000) = 1235 / 1000 ∧
    floatVal (12346 / 10000) ≠ floatInitClaimed (12346 / 10000) ∧
    floatAdd (12341 / 10000) 0 = 12341 / 10000 ∧
    floatAdd (12341 / 10000) 0 ≠ floatInitClaimed (12341 / 10000) := by
  have hf : (⌊(12346 / 10000 : ℚ) * 1000⌋ : ℤ) = 1234 := by
    rw [Int.floor_eq_iff]
    norm_num
  have hf2 : (⌊(12341 / 10000 : ℚ) * 1000⌋ : ℤ) = 1234 := by
    rw [Int.floor_eq_iff]
    norm_num
  refine ⟨rfl, ?_, ?_, by norm_num [floatAdd, floatVal], ?_⟩
  · rw [floatInitClaimed, if_pos (by norm_num), pyRound3]
    rw [hf]
    norm_num
  · rw [floatInitClaimed, if_pos (by norm_num), pyRound3]
    rw [hf]
    norm_num [floatVal]
  · rw [floatInitClaimed, if_pos (by norm_num), pyRound3]
    rw [hf2]
    norm_num [floatAdd, floatVal]

end CbPro

namespace CbPro

/-!
## Simulated order book (`src/alpha/mocks/order_book.py`)

Balance arithmetic goes through `Float`, whose operations are value-wise
plain float arithmetic (the constructor's rounding is a no-op, see above),
embedded exactly over `ℚ`.
-/

/-- Order side (`mode` in the source; any value other than `'sell'` takes
the buy path). -/
inductive Side
  | buy
  | sell
deriving Repr, DecidableEq

/-- The mock order book's balances: `usd` and `amt`. -/
structure OrderBook where
  usd : ℚ
  amt : ℚ
deriving Repr, DecidableEq

/-- `OrderBook.order`: a buy runs `amt = amt + usd / price; assert amt;
usd = Float()`, a sell runs `usd = usd + amt * price; assert usd;
amt = Float()`.  A failing `assert` (freshly computed balance zero) is
modelled as `none`. -/
def order (b : OrderBook) (side : Side) (price : ℚ) : Option OrderBook :=
  match side with
  | .buy =>
    if b.amt + b.usd / price = 0 then none else some ⟨0, b.amt + b.usd / price⟩
  | .sell =>
    if b.usd + b.amt * price = 0 then none else some ⟨b.usd + b.amt * price, 0⟩

/-- Exactly one of the two balances is nonzero. -/
def exactlyOne (b : OrderBook) : Prop :=
  (b.usd ≠ 0 ∧ b.amt = 0) ∨ (b.usd = 0 ∧ b.amt ≠ 0)

/-- Order-book states reachable from a one-sided initial state through
successful `order` calls with positive price. -/
inductive Reachable : OrderBook → Prop
  | init (b : OrderBook) (h : exactlyOne b) : Reachable b
  | step (b b' : OrderBook) (side : Side) (price : ℚ) (hb : Reachable b)
      (hp : 0 < price) (ho : order b side price = some b') : Reachable b'

/-- C9: in every state reachable by successful orders with positive price
from a state where exactly one balance is nonzero, exactly one balance is
nonzero; moreover a buy moves the entire currency balance into the asset
side (`amt' = amt + usd / price`) and zeroes the currency balance, and a
sell does the reverse. -/
theorem order_book_one_sided :
    (∀ b, Reachable b → exactlyOne b) ∧
    (∀ b b' price, 0 < price → order b .buy price = some b' →
      b'.usd = 0 ∧ b'.amt = b.amt + b.usd / price) ∧
    (∀ b b' price, 0 < price → order b .sell price = some b' →
      b'.amt = 0 ∧ b'.usd = b.usd + b.amt * price) := by
  refine ⟨?_, ?_, ?_⟩
  · intro b hb
    induction hb with
    | init b h => exact h
    | step b b' side price hb hp ho ih =>
      cases side
      · simp only [order] at ho
        by_cases hz : b.amt + b.usd / price = 0
        · rw [if_pos hz] at ho
          exact absurd ho (by simp)
        · rw [if_neg hz] at ho
          simp only [Option.some.injEq] at ho
          subst ho
          exact Or.inr ⟨rfl, hz⟩
      · simp only [order] at ho
        by_cases hz : b.usd + b.amt * price = 0
        · rw [if_pos hz] at ho
          exact absurd ho (by simp)
        · rw [if_neg hz] at ho
          simp only [Option.some.injEq] at ho
          subst ho
          exact Or.inl ⟨hz, rfl⟩
  · intro b b' price _ ho
    simp only [order] at ho
    by_cases hz : b.amt + b.usd / price = 0
    · rw [if_pos hz] at ho
      exact absurd ho (by simp)
    · rw [if_neg hz] at ho
      simp only [Option.some.injEq] at ho
      subst ho
      exact ⟨rfl, rfl⟩
  · intro b b' price _ ho
    simp only [order] at ho
    by_cases hz : b.usd + b.amt * price = 0
    · rw [if_pos hz] at ho
      exact absurd ho (by simp)
    · rw [if_neg hz] at ho
      simp only [Option.some.injEq] at ho
      subst ho
      exact ⟨rfl, rfl⟩

/-- Witness for `order_book_one_sided`: buying at price 100 from
`{usd: 1000, amt: 0}` reaches `{usd: 0, amt: 10}`, which is one-sided, and
the buy moved the whole balance. -/
theorem order_book_one_sided_witness :
    exactlyOne (⟨0, 10⟩ : OrderBook) ∧
    ((⟨0, 10⟩ : OrderBook).usd = 0 ∧
      (⟨0, 10⟩ : OrderBook).amt =
        (⟨1000, 0⟩ : OrderBook).amt + (⟨1000, 0⟩ : OrderBook).usd / 100) := by
  have H := order_book_one_sided
  refine ⟨H.1 ⟨0, 10⟩ ?_, H.2.1 ⟨1000, 0⟩ ⟨0, 10⟩ 100 (by norm_num)
    (by norm_num [order])⟩
  exact Reachable.step ⟨1000, 0⟩ ⟨0, 10⟩ .buy 100
    (Reachable.init _ (Or.inl ⟨by norm_num, rfl⟩)) (by norm_num)
    (by norm_num [order])

end CbPro
